import Mathlib

/-!
Shallow embedding of the account-management app (`src/app.js`): the user-record
store, its registration / login / profile-save handlers, the pure validation
helpers, and the localStorage persistence layer (JSON serialization of the
record collection), together with theorems settling the specification claims.

Strings are modelled by Lean `String` (a list of Unicode scalar characters);
JavaScript string lengths and character classes are read over those characters.
-/

namespace AccountApp

/-- Character class of the JavaScript `\s` regex class and of the characters
removed by `String.prototype.trim` (ECMAScript WhiteSpace ∪ LineTerminator). -/
def jsWhitespace (c : Char) : Bool :=
  c == '\x09' || c == '\x0a' || c == '\x0b' || c == '\x0c' || c == '\x0d' ||
  c == '\x20' || c == '\u00a0' || c == '\u1680' ||
  ('\u2000' ≤ c && c ≤ '\u200a') ||
  c == '\u2028' || c == '\u2029' || c == '\u202f' || c == '\u205f' ||
  c == '\u3000' || c == '\ufeff'

/-- JavaScript `String.prototype.trim`: drop leading and trailing whitespace. -/
def jsTrim (s : String) : String :=
  String.mk (((s.data.dropWhile jsWhitespace).reverse.dropWhile jsWhitespace).reverse)

/-- Characters matched by the class `[^\s@]` of the email regex. -/
def emailChar (c : Char) : Bool :=
  !jsWhitespace c && !(c == '@')

/-- Match of the domain part `[^\s@]+\.[^\s@]+` of the email regex against a
whole character list: some dot splits it into two nonempty `[^\s@]+` runs. -/
def emailTail (cs : List Char) : Bool :=
  (List.range cs.length).any fun j =>
    decide (1 ≤ j) && (cs.take j).all emailChar && (cs.get? j == some '.') &&
    !(cs.drop (j+1)).isEmpty && (cs.drop (j+1)).all emailChar

/-- Match of the anchored regex `^[^\s@]+@[^\s@]+\.[^\s@]+$` against a whole
character list: some `@` splits it into a nonempty `[^\s@]+` run and a domain
part matched by `emailTail`. -/
def emailMatch (cs : List Char) : Bool :=
  (List.range cs.length).any fun i =>
    decide (1 ≤ i) && (cs.take i).all emailChar && (cs.get? i == some '@') &&
    emailTail (cs.drop (i+1))

/-- `validateEmail` from `src/app.js`: test of the regex
`/^[^\s@]+@[^\s@]+\.[^\s@]+$/` against the email string. -/
def validateEmail (email : String) : Bool :=
  emailMatch email.data

/-- `calculatePasswordStrength` from `src/app.js`. -/
def calculatePasswordStrength (password : String) : String :=
  if password.length < 6 then "weak"
  else
    let strength : Nat :=
      (if 8 ≤ password.length then 1 else 0) +
      (if password.data.any (fun c => 'a' ≤ c && c ≤ 'z') then 1 else 0) +
      (if password.data.any (fun c => 'A' ≤ c && c ≤ 'Z') then 1 else 0) +
      (if password.data.any (fun c => '0' ≤ c && c ≤ '9') then 1 else 0) +
      (if password.data.any
          (fun c => !(('a' ≤ c && c ≤ 'z') || ('A' ≤ c && c ≤ 'Z') ||
                      ('0' ≤ c && c ≤ '9'))) then 1 else 0)
    if strength ≤ 2 then "weak"
    else if strength ≤ 4 then "medium"
    else "strong"

/-- A stored user record (the object created in `RegisterPage.handleSubmit`). -/
structure UserRecord where
  id : String
  firstName : String
  lastName : String
  email : String
  password : String
  memberSince : String
deriving DecidableEq

/-- The registration form state of `RegisterPage`. -/
structure RegForm where
  firstName : String
  lastName : String
  email : String
  password : String
  confirmPassword : String
deriving DecidableEq

/-- The profile edit form state of `ProfilePage`. -/
structure EditForm where
  firstName : String
  lastName : String
  email : String
deriving DecidableEq

/-- `RegisterPage.validateForm`: true exactly when no field error is recorded. -/
def validateRegForm (f : RegForm) : Bool :=
  !(jsTrim f.firstName == "") && !(jsTrim f.lastName == "") &&
  !(jsTrim f.email == "") && validateEmail f.email &&
  !(f.password == "") && !(decide (f.password.length < 6)) &&
  !(f.confirmPassword == "") && f.password == f.confirmPassword

/-- `ProfilePage.validateEditForm`: true exactly when no field error is
recorded. -/
def validateEditForm (f : EditForm) : Bool :=
  !(jsTrim f.firstName == "") && !(jsTrim f.lastName == "") &&
  !(jsTrim f.email == "") && validateEmail f.email

/-- Lowercase hexadecimal digit character for a value below 16 (codes 48-57
for the digits, 97-102 for the letters). -/
def hexDigitChar (n : Nat) : Char :=
  Char.ofNat (if n < 10 then 48 + n else 87 + n)

/-- Escaping of one character by `JSON.stringify` inside a string literal:
quote and backslash get a backslash escape, the five control characters with
shorthand forms get those, any other control character below U+0020 becomes a
`\u00xx` escape, and everything else is emitted literally. -/
def escSeq (c : Char) : List Char :=
  if c == '"' then ['\\', '"']
  else if c == '\\' then ['\\', '\\']
  else if c == '\x08' then ['\\', 'b']
  else if c == '\x09' then ['\\', 't']
  else if c == '\x0a' then ['\\', 'n']
  else if c == '\x0c' then ['\\', 'f']
  else if c == '\x0d' then ['\\', 'r']
  else if c.toNat < 0x20 then
    '\\' :: 'u' :: '0' :: '0' :: hexDigitChar (c.toNat / 16)
      :: [hexDigitChar (c.toNat % 16)]
  else [c]

/-- Characters of the JSON string literal for `s`. -/
def strLitChars (s : String) : List Char :=
  '"' :: (s.data.flatMap escSeq ++ ['"'])

/-- Key-value pairs of the serialized user object, in the insertion order of
the object literal built in `RegisterPage.handleSubmit`. -/
def userPairs (u : UserRecord) : List (String × String) :=
  [("id", u.id), ("firstName", u.firstName), ("lastName", u.lastName),
   ("email", u.email), ("password", u.password), ("memberSince", u.memberSince)]

/-- Characters of one serialized `"key":"value"` member. -/
def pairChars (p : String × String) : List Char :=
  strLitChars p.1 ++ ':' :: strLitChars p.2

/-- Comma-separated serialized members of an object. -/
def pairsChars : List (String × String) → List Char
  | [] => []
  | [p] => pairChars p
  | p :: ps => pairChars p ++ ',' :: pairsChars ps

/-- Characters of one serialized user record object. -/
def userChars (u : UserRecord) : List Char :=
  '\x7b' :: (pairsChars (userPairs u) ++ ['\x7d'])

/-- Comma-separated serialized elements of the user array. -/
def elemsChars : List UserRecord → List Char
  | [] => []
  | [u] => userChars u
  | u :: us => userChars u ++ ',' :: elemsChars us

/-- `JSON.stringify(userDatabase)`: the serialized form of the collection that
`updateLocalStorage` writes under the `users` key. -/
def stringifyUsers (us : List UserRecord) : String :=
  String.mk ('[' :: (elemsChars us ++ [']']))

/-- Value of a hexadecimal digit character, as read by `JSON.parse` (codes
48-57 for digits, 97-102 and 65-70 for the two letter cases). -/
def hexVal (c : Char) : Option Nat :=
  let n := c.toNat
  if 48 ≤ n ∧ n ≤ 57 then some (n - 48)
  else if 97 ≤ n ∧ n ≤ 102 then some (n - 87)
  else if 65 ≤ n ∧ n ≤ 70 then some (n - 55)
  else none

/-- Body of a JSON string literal as read by `JSON.parse`, after the opening
quote, with the decoded characters accumulated in reverse: a closing quote
ends the literal, a backslash introduces one of the nine JSON escapes
(`\uXXXX` decoding to the character with that code, a modelling restriction to
scalar values since Lean characters carry no lone surrogates), and any other
character stands for itself. -/
def readStrBody (acc : List Char) : List Char → Option (String × List Char)
  | [] => none
  | c :: rest =>
    if c == '"' then some (String.mk acc.reverse, rest)
    else if c == '\\' then
      match rest with
      | [] => none
      | e :: rest2 =>
        if e == 'u' then
          match rest2 with
          | h1 :: h2 :: h3 :: h4 :: rest3 =>
            match hexVal h1, hexVal h2, hexVal h3, hexVal h4 with
            | some a, some b, some x, some d =>
              readStrBody (Char.ofNat (((a * 16 + b) * 16 + x) * 16 + d) :: acc) rest3
            | _, _, _, _ => none
          | _ => none
        else if e == '"' then readStrBody ('"' :: acc) rest2
        else if e == '\\' then readStrBody ('\\' :: acc) rest2
        else if e == '/' then readStrBody ('/' :: acc) rest2
        else if e == 'b' then readStrBody ('\x08' :: acc) rest2
        else if e == 'f' then readStrBody ('\x0c' :: acc) rest2
        else if e == 'n' then readStrBody ('\x0a' :: acc) rest2
        else if e == 'r' then readStrBody ('\x0d' :: acc) rest2
        else if e == 't' then readStrBody ('\x09' :: acc) rest2
        else none
    else readStrBody (c :: acc) rest

/-- A whole JSON string literal: an opening quote followed by a body. -/
def readStr : List Char → Option (String × List Char)
  | '"' :: rest => readStrBody [] rest
  | _ => none

/-- One `"key":"value"` member of a serialized record object. -/
def readKV (cs : List Char) : Option ((String × String) × List Char) :=
  match readStr cs with
  | none => none
  | some (k, rest) =>
    match rest with
    | ':' :: rest2 =>
      match readStr rest2 with
      | none => none
      | some (v, rest3) => some ((k, v), rest3)
    | _ => none

/-- Nonempty comma-separated member list of an object, up to and including the
closing brace; the fuel bounds the number of members and is in surplus when
called with the input length. -/
def readPairsF : Nat → List Char → Option (List (String × String) × List Char)
  | 0, _ => none
  | fuel+1, cs =>
    match readKV cs with
    | some (kv, ',' :: rest2) =>
      match readPairsF fuel rest2 with
      | none => none
      | some (ps, rest3) => some (kv :: ps, rest3)
    | some (kv, '\x7d' :: rest2) => some ([kv], rest2)
    | _ => none

/-- A serialized object: its members as a key-value list. -/
def readObj (cs : List Char) : Option (List (String × String) × List Char) :=
  match cs with
  | '\x7b' :: '\x7d' :: rest => some ([], rest)
  | '\x7b' :: rest => readPairsF rest.length rest
  | _ => none

/-- Member access on the parsed object: the value under `k`, later duplicate
keys overriding earlier ones as in `JSON.parse`. -/
def lookupKey (ps : List (String × String)) (k : String) : Option String :=
  (ps.reverse.find? (fun p => p.1 == k)).map (fun p => p.2)

/-- The typed reading of a parsed object as a user record, through the six
fields the app accesses on it. -/
def userFromPairs (ps : List (String × String)) : Option UserRecord :=
  match lookupKey ps "id", lookupKey ps "firstName", lookupKey ps "lastName",
        lookupKey ps "email", lookupKey ps "password",
        lookupKey ps "memberSince" with
  | some i, some fn, some ln, some em, some pw, some ms =>
    some { id := i, firstName := fn, lastName := ln, email := em,
           password := pw, memberSince := ms }
  | _, _, _, _, _, _ => none

/-- One serialized user record: an object read as a record. -/
def readUser (cs : List Char) : Option (UserRecord × List Char) :=
  match readObj cs with
  | none => none
  | some (ps, rest) =>
    match userFromPairs ps with
    | none => none
    | some u => some (u, rest)

/-- Nonempty comma-separated element list of the user array, up to and
including the closing bracket; the fuel bounds the number of elements. -/
def readElemsF : Nat → List Char → Option (List UserRecord × List Char)
  | 0, _ => none
  | fuel+1, cs =>
    match readUser cs with
    | some (u, ',' :: rest2) =>
      match readElemsF fuel rest2 with
      | none => none
      | some (us, rest3) => some (u :: us, rest3)
    | some (u, ']' :: rest2) => some ([u], rest2)
    | _ => none

/-- `JSON.parse` of the persisted slot, restricted to the grammar
`JSON.stringify` emits for user collections (an array of flat string-field
objects, with no interstitial whitespace): the parsed collection when the
whole input is consumed. -/
def parseUsers (s : String) : Option (List UserRecord) :=
  match s.data with
  | ['[', ']'] => some []
  | '[' :: rest =>
    match readElemsF rest.length rest with
    | some (us, []) => some us
    | _ => none
  | _ => none

/-- Reload of the collection from the persisted slot, as on startup:
`JSON.parse(localStorage.getItem('users')) || []` — an absent key yields the
empty collection, and a stored serialization is parsed. -/
def loadUsers : Option String → Option (List UserRecord)
  | none => some []
  | some s => parseUsers s

/-- The mutable state of the app outside React components: the in-memory
`userDatabase` array and the `users` slot of localStorage (`none` when the key
is absent). -/
structure AppState where
  db : List UserRecord
  slot : Option String
deriving DecidableEq

/-- `updateLocalStorage` from `src/app.js`: overwrite the persisted slot with
the serialization of the current collection. -/
def updateLocalStorage (st : AppState) : AppState :=
  { db := st.db, slot := some (stringifyUsers st.db) }

/-- Errors surfaced by the three handlers: field-level validation failures,
the duplicate-email form error, and the invalid-credentials login error. -/
inductive AppError where
  | validationError
  | duplicateEmail
  | invalidCredentials
deriving DecidableEq

/-- Decidable equality of handler results, for concrete evaluation. -/
instance : DecidableEq (Except AppError UserRecord) := fun a b =>
  match a, b with
  | .ok x, .ok y =>
    if h : x = y then isTrue (by rw [h]) else isFalse (by simp [h])
  | .error x, .error y =>
    if h : x = y then isTrue (by rw [h]) else isFalse (by simp [h])
  | .ok _, .error _ => isFalse (by simp)
  | .error _, .ok _ => isFalse (by simp)

/-- The record object built in `RegisterPage.handleSubmit`: id is
`Date.now().toString()` for the current millisecond clock value, names and
email are trimmed, the password is stored as typed, and `memberSince` is the
ISO rendering of the creation time. -/
def mkUser (f : RegForm) (nowMs : Nat) (isoNow : String) : UserRecord :=
  { id := Nat.repr nowMs
    firstName := jsTrim f.firstName
    lastName := jsTrim f.lastName
    email := jsTrim f.email
    password := f.password
    memberSince := isoNow }

/-- `RegisterPage.handleSubmit` after `preventDefault`: validate the form,
scan for an existing record with the submitted email, and otherwise append the
new record and persist. -/
def handleRegisterSubmit (st : AppState) (f : RegForm) (nowMs : Nat)
    (isoNow : String) : AppState × Except AppError UserRecord :=
  if !validateRegForm f then (st, .error .validationError)
  else
    match st.db.find? (fun u => u.email == f.email) with
    | some _ => (st, .error .duplicateEmail)
    | none =>
      (updateLocalStorage { db := st.db ++ [mkUser f nowMs isoNow], slot := st.slot },
       .ok (mkUser f nowMs isoNow))

/-- Credential lookup of `LoginPage.handleSubmit` (lines 93-104): the first
record whose email and password both equal the inputs, else the
invalid-credentials error. -/
def authenticate (db : List UserRecord) (email password : String) :
    Except AppError UserRecord :=
  match db.find? (fun u => u.email == email && u.password == password) with
  | some u => .ok u
  | none => .error .invalidCredentials

/-- `LoginPage.handleSubmit`: email format and nonempty password checks, then
the credential lookup; the store is never written. -/
def handleLoginSubmit (st : AppState) (email password : String) :
    AppState × Except AppError UserRecord :=
  if !validateEmail email then (st, .error .validationError)
  else if password == "" then (st, .error .validationError)
  else (st, authenticate st.db email password)

/-- The `updatedUser` object built in `ProfilePage.handleSave`: spread of the
session user with the trimmed edited mutable fields. -/
def applyEdit (user : UserRecord) (f : EditForm) : UserRecord :=
  { user with
    firstName := jsTrim f.firstName
    lastName := jsTrim f.lastName
    email := jsTrim f.email }

/-- `ProfilePage.handleSave`: validate the edit form; when the email changed,
scan for a different record (id differing from the session user's) with the
new email; then replace the record found by id (if any) and persist. -/
def handleSave (st : AppState) (user : UserRecord) (f : EditForm) :
    AppState × Except AppError UserRecord :=
  if !validateEditForm f then (st, .error .validationError)
  else if f.email != user.email &&
      (st.db.find? (fun u => u.email == f.email && u.id != user.id)).isSome then
    (st, .error .duplicateEmail)
  else
    match st.db.findIdx? (fun u => u.id == user.id) with
    | some i =>
      (updateLocalStorage { db := st.db.set i (applyEdit user f), slot := st.slot },
       .ok (applyEdit user f))
    | none => (st, .ok (applyEdit user f))

/-- States of the app reachable from a fresh browser profile (empty collection,
absent slot) by any sequence of form submissions; login submissions are
omitted since they never change the state. -/
inductive Reachable : AppState → Prop
  | init : Reachable ⟨[], none⟩
  | register (st : AppState) (f : RegForm) (nowMs : Nat) (isoNow : String) :
      Reachable st → Reachable (handleRegisterSubmit st f nowMs isoNow).1
  | save (st : AppState) (user : UserRecord) (f : EditForm) :
      Reachable st → Reachable (handleSave st user f).1

/-- Modelled from the spec wording of the strength classifier, for comparison
with `calculatePasswordStrength`: the five binary criteria. -/
def strengthCriteria (password : String) : List Bool :=
  [decide (8 ≤ password.length),
   password.data.any (fun c => 'a' ≤ c && c ≤ 'z'),
   password.data.any (fun c => 'A' ≤ c && c ≤ 'Z'),
   password.data.any (fun c => '0' ≤ c && c ≤ '9'),
   password.data.any
     (fun c => !(('a' ≤ c && c ≤ 'z') || ('A' ≤ c && c ≤ 'Z') ||
                 ('0' ≤ c && c ≤ '9')))]

/-- Modelled from the spec wording of the strength classifier: weak when the
length is below 6; otherwise, with the score counting satisfied criteria, weak
up to score 2, medium for scores 3 and 4, and strong at score 5. -/
def passwordStrengthSpec (password : String) : String :=
  if password.length < 6 then "weak"
  else
    let score := (strengthCriteria password).count true
    if score ≤ 2 then "weak"
    else if 3 ≤ score ∧ score ≤ 4 then "medium"
    else "strong"

/-! ## Helper lemmas -/

/-- Lists all of whose elements fail the predicate are untouched by
`dropWhile`. -/
theorem dropWhile_eq_self_of_not {p : Char → Bool} {l : List Char}
    (h : ∀ c ∈ l, p c = false) : l.dropWhile p = l := by
  cases l with
  | nil => rfl
  | cons c cs => simp [List.dropWhile_cons, h c (by simp)]

/-- Trimming a string with no whitespace characters is the identity. -/
theorem jsTrim_eq_self {s : String} (h : ∀ c ∈ s.data, jsWhitespace c = false) :
    jsTrim s = s := by
  unfold jsTrim
  rw [dropWhile_eq_self_of_not h,
      dropWhile_eq_self_of_not (fun c hc => h c (List.mem_reverse.mp hc)),
      List.reverse_reverse]

/-- Every character of a string matched by the email regex is in the class
`[^\s@]` or is the `@` itself. -/
theorem emailMatch_mem {cs : List Char} (h : emailMatch cs = true) :
    ∀ c ∈ cs, emailChar c = true ∨ c = '@' := by
  unfold emailMatch at h
  obtain ⟨i, hi, hcond⟩ := List.any_eq_true.mp h
  simp only [Bool.and_eq_true, decide_eq_true_eq, beq_iff_eq] at hcond
  obtain ⟨⟨⟨h1i, htake⟩, hat⟩, htail⟩ := hcond
  have hilen : i < cs.length := by
    rcases List.get?_eq_some.mp hat with ⟨hlt, _⟩
    exact hlt
  have hget : cs[i] = '@' := by
    rcases List.get?_eq_some.mp hat with ⟨hlt, hg⟩
    simpa using hg
  unfold emailTail at htail
  obtain ⟨j, hj, hjcond⟩ := List.any_eq_true.mp htail
  simp only [Bool.and_eq_true, decide_eq_true_eq, beq_iff_eq,
    Bool.not_eq_true'] at hjcond
  obtain ⟨⟨⟨⟨h1j, hjtake⟩, hdot⟩, _⟩, hjdrop⟩ := hjcond
  set ds := cs.drop (i+1) with hds
  have hjlen : j < ds.length := by
    rcases List.get?_eq_some.mp hdot with ⟨hlt, _⟩
    exact hlt
  have hjget : ds[j] = '.' := by
    rcases List.get?_eq_some.mp hdot with ⟨hlt, hg⟩
    simpa using hg
  intro c hc
  rw [← List.take_append_drop i cs, List.mem_append] at hc
  rcases hc with hc | hc
  · exact Or.inl (List.all_eq_true.mp htake c hc)
  · rw [List.drop_eq_getElem_cons hilen, hget] at hc
    rcases List.mem_cons.mp hc with hc | hc
    · exact Or.inr hc
    · rw [← hds] at hc
      rw [← List.take_append_drop j ds, List.mem_append] at hc
      rcases hc with hc | hc
      · exact Or.inl (List.all_eq_true.mp hjtake c hc)
      · rw [List.drop_eq_getElem_cons hjlen, hjget] at hc
        rcases List.mem_cons.mp hc with hc | hc
        · subst hc
          exact Or.inl (by decide)
        · exact Or.inl (List.all_eq_true.mp hjdrop c hc)

/-- A string accepted by the email format check has no whitespace character. -/
theorem validateEmail_not_ws {s : String} (h : validateEmail s = true) :
    ∀ c ∈ s.data, jsWhitespace c = false := by
  intro c hc
  rcases emailMatch_mem h c hc with he | he
  · unfold emailChar at he
    simp only [Bool.and_eq_true, Bool.not_eq_true'] at he
    exact he.1
  · subst he
    decide

/-- Trimming a string accepted by the email format check is the identity. -/
theorem jsTrim_of_validateEmail {s : String} (h : validateEmail s = true) :
    jsTrim s = s :=
  jsTrim_eq_self (validateEmail_not_ws h)

/-- Components of a passing registration validation. -/
theorem validateRegForm_email {f : RegForm} (h : validateRegForm f = true) :
    validateEmail f.email = true := by
  unfold validateRegForm at h
  simp only [Bool.and_eq_true] at h
  exact h.1.1.1.1.2

/-- Components of a passing edit validation. -/
theorem validateEditForm_email {f : EditForm} (h : validateEditForm f = true) :
    validateEmail f.email = true := by
  unfold validateEditForm at h
  simp only [Bool.and_eq_true] at h
  exact h.2

/-! ## Claim theorems: validation helpers -/

/-- C10: every string accepted by the email-shape check contains no whitespace
character, so trimming an accepted email is the identity; consequently the
email stored by a successful registration (the trimmed input) equals the email
the duplicate scan compared against existing records (the untrimmed input). -/
theorem c10_email_no_ws_trim_id (s : String) (hs : validateEmail s = true)
    (f : RegForm) (hf : validateRegForm f = true) (nowMs : Nat) (isoNow : String) :
    (∀ c ∈ s.data, jsWhitespace c = false) ∧
    (jsTrim s = s ∧ (mkUser f nowMs isoNow).email = f.email) := by
  refine ⟨validateEmail_not_ws hs, jsTrim_of_validateEmail hs, ?_⟩
  show jsTrim f.email = f.email
  exact jsTrim_of_validateEmail (validateRegForm_email hf)

/-- Witness for C10 at a concrete accepted email and valid form. -/
theorem c10_email_no_ws_trim_id_witness :
    (validateEmail "a@b.c" = true ∧
      validateRegForm ⟨"A", "B", "a@b.c", "secret1", "secret1"⟩ = true) ∧
    (jsTrim "a@b.c" = "a@b.c" ∧
      (mkUser ⟨"A", "B", "a@b.c", "secret1", "secret1"⟩ 5 "t").email
        = ("a@b.c" : String)) :=
  ⟨⟨by decide, by decide⟩,
   (c10_email_no_ws_trim_id "a@b.c" (by decide)
      ⟨"A", "B", "a@b.c", "secret1", "secret1"⟩ (by decide) 5 "t").2⟩

/-- C4: the strength classifier returns weak for length below 6, and otherwise
classifies by the count of the five satisfied criteria — weak up to 2, medium
for 3 or 4, strong for 5 — exactly as the spec words it. -/
theorem c4_strength_matches_spec (password : String) :
    calculatePasswordStrength password = passwordStrengthSpec password := by
  unfold calculatePasswordStrength passwordStrengthSpec strengthCriteria
  by_cases h0 : password.length < 6
  · simp [h0]
  · simp only [h0, if_false]
    by_cases h1 : 8 ≤ password.length <;>
    cases h2 : password.data.any (fun c => 'a' ≤ c && c ≤ 'z') <;>
    cases h3 : password.data.any (fun c => 'A' ≤ c && c ≤ 'Z') <;>
    cases h4 : password.data.any (fun c => '0' ≤ c && c ≤ '9') <;>
    cases h5 : password.data.any
      (fun c => !(('a' ≤ c && c ≤ 'z') || ('A' ≤ c && c ≤ 'Z') ||
                  ('0' ≤ c && c ≤ '9'))) <;>
    simp [h1, h2, h3, h4, h5, List.count_cons]

/-- C5 counterexample: the sample input `abcdefgh` satisfies only the
length-at-least-8 and has-lowercase criteria, so its score is 2 and the
classifier returns weak, not the claimed medium. -/
theorem c5_sample_counterexample :
    calculatePasswordStrength "abcdefgh" = "weak" ∧
    calculatePasswordStrength "abcdefgh" ≠ "medium" := by
  decide

/-- C5 amended: on the fixed sample inputs the classifier returns weak for
`abc`, weak for `abcdefgh` (score 2), strong for `Password1!`, and weak for
`password`. -/
theorem c5_samples_amended :
    calculatePasswordStrength "abc" = "weak" ∧
    calculatePasswordStrength "abcdefgh" = "weak" ∧
    calculatePasswordStrength "Password1!" = "strong" ∧
    calculatePasswordStrength "password" = "weak" := by
  decide

/-! ## Serialization round trip -/

/-- Reading back an emitted hexadecimal digit recovers its value. -/
theorem hexVal_hexDigitChar : ∀ n < 16, hexVal (hexDigitChar n) = some n := by
  decide

/-- Reading one escaped character undoes the escaping and continues with the
body. -/
theorem readStrBody_escSeq (c : Char) (acc rest : List Char) :
    readStrBody acc (escSeq c ++ rest) = readStrBody (c :: acc) rest := by
  unfold escSeq
  split_ifs with h1 h2 h3 h4 h5 h6 h7 h8
  · rw [beq_iff_eq] at h1
    subst h1
    rw [readStrBody.eq_def]
    simp
  · rw [beq_iff_eq] at h2
    subst h2
    rw [readStrBody.eq_def]
    simp
  · rw [beq_iff_eq] at h3
    subst h3
    rw [readStrBody.eq_def]
    simp
  · rw [beq_iff_eq] at h4
    subst h4
    rw [readStrBody.eq_def]
    simp
  · rw [beq_iff_eq] at h5
    subst h5
    rw [readStrBody.eq_def]
    simp
  · rw [beq_iff_eq] at h6
    subst h6
    rw [readStrBody.eq_def]
    simp
  · rw [beq_iff_eq] at h7
    subst h7
    rw [readStrBody.eq_def]
    simp
  · rw [readStrBody.eq_def]
    have hdiv : c.toNat / 16 < 16 := by omega
    have hmod : c.toNat % 16 < 16 := by omega
    have h0 : hexVal '0' = some 0 := by decide
    simp only [List.cons_append, List.nil_append]
    simp [h0, hexVal_hexDigitChar _ hdiv, hexVal_hexDigitChar _ hmod]
    have harith : c.toNat / 16 * 16 + c.toNat % 16 = c.toNat := by omega
    rw [harith, Char.ofNat_toNat]
  · have h1f : (c == '"') = false := by
      simpa using h1
    have h2f : (c == '\\') = false := by
      simpa using h2
    rw [List.singleton_append, readStrBody.eq_def]
    simp [h1f, h2f]

/-- Reading an escaped run stops exactly at the following closing quote,
appending the run to the accumulator. -/
theorem readStrBody_flatMap (cs : List Char) : ∀ (acc rest : List Char),
    readStrBody acc (cs.flatMap escSeq ++ '"' :: rest)
      = some (String.mk (acc.reverse ++ cs), rest) := by
  induction cs with
  | nil =>
    intro acc rest
    rw [List.flatMap_nil, List.nil_append, readStrBody.eq_def]
    simp
  | cons c cs ih =>
    intro acc rest
    rw [List.flatMap_cons, List.append_assoc, readStrBody_escSeq, ih]
    simp

/-- Reading a serialized string literal recovers the string. -/
theorem readStr_strLitChars (s : String) (rest : List Char) :
    readStr (strLitChars s ++ rest) = some (s, rest) := by
  show readStr ('"' :: (s.data.flatMap escSeq ++ ['"']) ++ rest) = some (s, rest)
  rw [List.cons_append, List.append_assoc, List.singleton_append]
  show readStrBody [] (s.data.flatMap escSeq ++ ('"' :: rest)) = some (s, rest)
  rw [readStrBody_flatMap]
  rfl

/-- Reading a serialized member recovers its key-value pair. -/
theorem readKV_pairChars (p : String × String) (rest : List Char) :
    readKV (pairChars p ++ rest) = some (p, rest) := by
  obtain ⟨k, v⟩ := p
  show readKV ((strLitChars k ++ ':' :: strLitChars v) ++ rest) = some ((k, v), rest)
  rw [List.append_assoc, List.cons_append]
  unfold readKV
  rw [readStr_strLitChars]
  simp [readStr_strLitChars]

/-- A serialized member list has at least one character per member. -/
theorem length_le_pairsChars : ∀ ps : List (String × String),
    ps.length ≤ (pairsChars ps).length := by
  intro ps
  match ps with
  | [] => simp [pairsChars]
  | [p] =>
    simp [pairsChars, pairChars, strLitChars]
  | p :: q :: ps =>
    have ih := length_le_pairsChars (q :: ps)
    simp only [pairsChars, List.length_append, List.length_cons]
    simp only [List.length_cons] at ih
    omega

/-- Reading a serialized nonempty member list up to the closing brace recovers
the pairs, for any fuel at least the number of members. -/
theorem readPairsF_pairsChars : ∀ (ps : List (String × String)), ps ≠ [] →
    ∀ fuel, ps.length ≤ fuel → ∀ rest,
    readPairsF fuel (pairsChars ps ++ '\x7d' :: rest) = some (ps, rest) := by
  intro ps
  induction ps with
  | nil => intro h; exact absurd rfl h
  | cons p ps ih =>
    intro _ fuel hfuel rest
    match fuel with
    | 0 => simp at hfuel
    | fuel + 1 =>
      cases ps with
      | nil =>
        show readPairsF (fuel + 1) (pairChars p ++ '\x7d' :: rest) = some ([p], rest)
        unfold readPairsF
        rw [readKV_pairChars]
        simp
      | cons q ps2 =>
        show readPairsF (fuel + 1)
          ((pairChars p ++ ',' :: pairsChars (q :: ps2)) ++ '\x7d' :: rest)
            = some (p :: q :: ps2, rest)
        rw [List.append_assoc, List.cons_append]
        unfold readPairsF
        rw [readKV_pairChars]
        have hq : (q :: ps2).length ≤ fuel := by
          simp only [List.length_cons] at hfuel ⊢
          omega
        simp [ih (by simp) fuel hq rest]

/-- Reading a serialized object whose member part does not start with a
closing brace goes through the member-list reader. -/
theorem readObj_cons (c : Char) (t : List Char) (hc : c ≠ '\x7d') :
    readObj ('\x7b' :: c :: t) = readPairsF (c :: t).length (c :: t) := by
  unfold readObj
  split
  · rename_i heq
    rw [List.cons.injEq, List.cons.injEq] at heq
    exact absurd heq.2.1 hc
  · rename_i heq
    rw [List.cons.injEq] at heq
    rw [heq.2]
  · rename_i hno1 hno2
    exact absurd rfl (hno2 (c :: t))

/-- The six members of a serialized record read back as that record. -/
theorem userFromPairs_userPairs (u : UserRecord) :
    userFromPairs (userPairs u) = some u := rfl

/-- Reading a serialized record object recovers its member pairs. -/
theorem readObj_userChars (u : UserRecord) (rest : List Char) :
    readObj (userChars u ++ rest) = some (userPairs u, rest) := by
  obtain ⟨t, ht⟩ : ∃ t, pairsChars (userPairs u) = '"' :: t := ⟨_, rfl⟩
  show readObj ('\x7b' :: (pairsChars (userPairs u) ++ ['\x7d']) ++ rest)
    = some (userPairs u, rest)
  rw [List.cons_append, List.append_assoc, List.singleton_append]
  rw [show pairsChars (userPairs u) ++ '\x7d' :: rest = '"' :: (t ++ '\x7d' :: rest)
    from by rw [ht, List.cons_append]]
  rw [readObj_cons '"' (t ++ '\x7d' :: rest) (by decide)]
  rw [show ('"' : Char) :: (t ++ '\x7d' :: rest) = pairsChars (userPairs u) ++ '\x7d' :: rest
    from by rw [ht, List.cons_append]]
  refine readPairsF_pairsChars (userPairs u) (by simp [userPairs]) _ ?_ rest
  have hp := length_le_pairsChars (userPairs u)
  simp only [List.length_append, List.length_cons]
  omega

/-- Reading a serialized record recovers it. -/
theorem readUser_userChars (u : UserRecord) (rest : List Char) :
    readUser (userChars u ++ rest) = some (u, rest) := by
  unfold readUser
  rw [readObj_userChars]
  simp [userFromPairs_userPairs]

/-- A serialized element list has at least one character per element. -/
theorem length_le_elemsChars : ∀ us : List UserRecord,
    us.length ≤ (elemsChars us).length := by
  intro us
  match us with
  | [] => simp [elemsChars]
  | [u] => simp [elemsChars, userChars]
  | u :: v :: us =>
    have ih := length_le_elemsChars (v :: us)
    simp only [elemsChars, List.length_append, List.length_cons]
    simp only [List.length_cons] at ih
    omega

/-- Reading a serialized nonempty element list up to the closing bracket
recovers the records, for any fuel at least the number of elements. -/
theorem readElemsF_elemsChars : ∀ (us : List UserRecord), us ≠ [] →
    ∀ fuel, us.length ≤ fuel → ∀ rest,
    readElemsF fuel (elemsChars us ++ ']' :: rest) = some (us, rest) := by
  intro us
  induction us with
  | nil => intro h; exact absurd rfl h
  | cons u us ih =>
    intro _ fuel hfuel rest
    match fuel with
    | 0 => simp at hfuel
    | fuel + 1 =>
      cases us with
      | nil =>
        show readElemsF (fuel + 1) (userChars u ++ ']' :: rest) = some ([u], rest)
        unfold readElemsF
        rw [readUser_userChars]
        simp
      | cons v us2 =>
        show readElemsF (fuel + 1)
          ((userChars u ++ ',' :: elemsChars (v :: us2)) ++ ']' :: rest)
            = some (u :: v :: us2, rest)
        rw [List.append_assoc, List.cons_append]
        unfold readElemsF
        rw [readUser_userChars]
        have hv : (v :: us2).length ≤ fuel := by
          simp only [List.length_cons] at hfuel ⊢
          omega
        simp [ih (by simp) fuel hv rest]

/-- Parsing the serialization of any collection recovers the collection. -/
theorem parseUsers_stringifyUsers (us : List UserRecord) :
    parseUsers (stringifyUsers us) = some us := by
  cases us with
  | nil => rfl
  | cons u us2 =>
    obtain ⟨t, ht⟩ : ∃ t, elemsChars (u :: us2) = '\x7b' :: t := by
      cases us2 with
      | nil => exact ⟨_, rfl⟩
      | cons v vs => exact ⟨_, rfl⟩
    show (match ('[' :: (elemsChars (u :: us2) ++ [']']) : List Char) with
      | ['[', ']'] => some []
      | '[' :: rest =>
        match readElemsF rest.length rest with
        | some (ps, []) => some ps
        | _ => none
      | _ => none) = some (u :: us2)
    rw [ht, List.cons_append]
    show (match readElemsF ('\x7b' :: (t ++ [']'])).length ('\x7b' :: (t ++ [']'])) with
      | some (ps, []) => some ps
      | _ => none) = some (u :: us2)
    rw [show ('\x7b' : Char) :: (t ++ [']']) = elemsChars (u :: us2) ++ ']' :: []
      from by rw [ht, List.cons_append]]
    have hlen : (u :: us2).length ≤ (elemsChars (u :: us2) ++ ']' :: []).length := by
      have he := length_le_elemsChars (u :: us2)
      simp only [List.length_append, List.length_cons, List.length_nil] at he ⊢
      omega
    rw [readElemsF_elemsChars (u :: us2) (by simp) _ hlen []]

/-- C8: persist-then-reload is a round trip — after `updateLocalStorage`
writes the serialized collection to the slot, reloading the slot yields a
collection identical to the one serialized. -/
theorem c8_persist_reload_roundtrip (st : AppState) :
    loadUsers (updateLocalStorage st).slot = some st.db := by
  show loadUsers (some (stringifyUsers st.db)) = some st.db
  show parseUsers (stringifyUsers st.db) = some st.db
  exact parseUsers_stringifyUsers st.db

/-! ## Claim theorems: store operations -/

/-- C2: for a valid registration input, the submission fails with the
duplicate-email error exactly when some existing record carries the new
record's email; on failure the state is untouched, and otherwise the new
record is appended at the end of the unchanged collection, which is
persisted. -/
theorem c2_register_spec (st : AppState) (f : RegForm) (nowMs : Nat)
    (isoNow : String) (hf : validateRegForm f = true) :
    ((handleRegisterSubmit st f nowMs isoNow).2 = .error .duplicateEmail ↔
      ∃ u ∈ st.db, u.email = (mkUser f nowMs isoNow).email) ∧
    ((∃ u ∈ st.db, u.email = (mkUser f nowMs isoNow).email) →
      (handleRegisterSubmit st f nowMs isoNow).1 = st) ∧
    ((¬ ∃ u ∈ st.db, u.email = (mkUser f nowMs isoNow).email) →
      (handleRegisterSubmit st f nowMs isoNow).1.db
          = st.db ++ [mkUser f nowMs isoNow] ∧
      (handleRegisterSubmit st f nowMs isoNow).1.slot
          = some (stringifyUsers (st.db ++ [mkUser f nowMs isoNow])) ∧
      (handleRegisterSubmit st f nowMs isoNow).2
          = .ok (mkUser f nowMs isoNow)) := by
  have hemail : (mkUser f nowMs isoNow).email = f.email :=
    jsTrim_of_validateEmail (validateRegForm_email hf)
  simp only [hemail]
  unfold handleRegisterSubmit
  rw [hf]
  simp only [Bool.not_true, Bool.false_eq_true, if_false]
  cases hfind : st.db.find? (fun u => u.email == f.email) with
  | some u =>
    have hmem := List.mem_of_find?_eq_some hfind
    have hpu := List.find?_some hfind
    rw [beq_iff_eq] at hpu
    exact ⟨iff_of_true rfl ⟨u, hmem, hpu⟩, fun _ => rfl,
      fun hno => absurd ⟨u, hmem, hpu⟩ hno⟩
  | none =>
    have hall := List.find?_eq_none.mp hfind
    have hnoex : ¬ ∃ u ∈ st.db, u.email = f.email := by
      intro ⟨u, hmem, heq⟩
      exact absurd (by rw [heq]; simp) (hall u hmem)
    exact ⟨iff_of_false (by simp) hnoex, fun hex => absurd hex hnoex,
      fun _ => ⟨rfl, rfl, rfl⟩⟩

/-- Witness for C2 at a concrete valid registration over the empty store. -/
theorem c2_register_spec_witness :
    validateRegForm ⟨"A", "B", "a@b.c", "secret1", "secret1"⟩ = true ∧
    ((handleRegisterSubmit ⟨[], none⟩
        ⟨"A", "B", "a@b.c", "secret1", "secret1"⟩ 5 "t").2
          = .error .duplicateEmail ↔
      ∃ u ∈ ([] : List UserRecord),
        u.email = (mkUser ⟨"A", "B", "a@b.c", "secret1", "secret1"⟩ 5 "t").email) :=
  ⟨by decide,
   (c2_register_spec ⟨[], none⟩ ⟨"A", "B", "a@b.c", "secret1", "secret1"⟩
      5 "t" (by decide)).1⟩

/-- C3: the credential lookup returns a record exactly when it is the first
record in the collection whose email and password both equal the inputs
(case-sensitively); with no such record it fails with the invalid-credentials
error; a login submission never changes the app state. -/
theorem c3_authenticate_spec (db : List UserRecord) (email password : String) :
    (∀ u, authenticate db email password = .ok u ↔
      (u.email = email ∧ u.password = password ∧
        ∃ l1 l2, db = l1 ++ u :: l2 ∧
          ∀ v ∈ l1, ¬(v.email = email ∧ v.password = password))) ∧
    (authenticate db email password = .error .invalidCredentials ↔
      ∀ u ∈ db, ¬(u.email = email ∧ u.password = password)) ∧
    (∀ st : AppState, (handleLoginSubmit st email password).1 = st) := by
  have hok : ∀ u, authenticate db email password = .ok u ↔
      db.find? (fun v => v.email == email && v.password == password) = some u := by
    intro u
    unfold authenticate
    cases h : db.find? (fun v => v.email == email && v.password == password) with
    | some w => simp
    | none => simp
  have herr : authenticate db email password = .error .invalidCredentials ↔
      db.find? (fun v => v.email == email && v.password == password) = none := by
    unfold authenticate
    cases h : db.find? (fun v => v.email == email && v.password == password) with
    | some w => simp
    | none => simp
  refine ⟨?_, ?_, ?_⟩
  · intro u
    rw [hok u, List.find?_eq_some]
    constructor
    · intro ⟨hpu, l1, l2, hsplit, hnot⟩
      simp only [Bool.and_eq_true, beq_iff_eq] at hpu
      refine ⟨hpu.1, hpu.2, l1, l2, hsplit, fun v hv hcon => ?_⟩
      have hthis := hnot v hv
      rw [hcon.1, hcon.2] at hthis
      simp at hthis
    · intro ⟨he, hp, l1, l2, hsplit, hnot⟩
      refine ⟨by simp [he, hp], l1, l2, hsplit, fun v hv => ?_⟩
      have hthis := hnot v hv
      by_cases hve : v.email = email
      · by_cases hvp : v.password = password
        · exact absurd ⟨hve, hvp⟩ hthis
        · simp [hve, hvp]
      · simp [hve]
  · rw [herr, List.find?_eq_none]
    constructor
    · intro hall u hu hcon
      have hthis := hall u hu
      rw [hcon.1, hcon.2] at hthis
      simp at hthis
    · intro hall u hu hcon
      simp only [Bool.and_eq_true, beq_iff_eq] at hcon
      exact hall u hu hcon
  · intro st
    unfold handleLoginSubmit
    split_ifs <;> rfl

/-- C6 (amended): for a valid edit input, the save fails with the
duplicate-email error — leaving the state untouched — exactly when the patch
email differs from the edited user's own email and equals the email of a
record whose id differs; in every other case the save succeeds, and in
particular keeping the own unchanged email always skips the duplicate check
and succeeds. -/
theorem c6_update_duplicate_amended (st : AppState) (user : UserRecord)
    (f : EditForm) (hv : validateEditForm f = true) :
    (handleSave st user f = (st, .error .duplicateEmail) ↔
      (f.email ≠ user.email ∧
        ∃ v ∈ st.db, v.email = f.email ∧ v.id ≠ user.id)) ∧
    (¬(f.email ≠ user.email ∧
        ∃ v ∈ st.db, v.email = f.email ∧ v.id ≠ user.id) →
      (handleSave st user f).2 = .ok (applyEdit user f)) ∧
    (f.email = user.email →
      (handleSave st user f).2 = .ok (applyEdit user f)) := by
  unfold handleSave
  rw [hv]
  simp only [Bool.not_true, Bool.false_eq_true, if_false]
  by_cases hc : (f.email != user.email &&
      (st.db.find? (fun u => u.email == f.email && u.id != user.id)).isSome)
        = true
  · rw [if_pos hc]
    rw [Bool.and_eq_true] at hc
    obtain ⟨hbne, hsome⟩ := hc
    rw [bne_iff_ne] at hbne
    rw [List.find?_isSome] at hsome
    obtain ⟨v, hvmem, hvp⟩ := hsome
    simp only [Bool.and_eq_true, beq_iff_eq, bne_iff_ne] at hvp
    have hcp : f.email ≠ user.email ∧
        ∃ v ∈ st.db, v.email = f.email ∧ v.id ≠ user.id :=
      ⟨hbne, v, hvmem, hvp.1, hvp.2⟩
    exact ⟨iff_of_true rfl hcp, fun hno => absurd hcp hno,
      fun heq => absurd heq hcp.1⟩
  · rw [if_neg hc]
    have hnc : ¬(f.email ≠ user.email ∧
        ∃ v ∈ st.db, v.email = f.email ∧ v.id ≠ user.id) := by
      intro ⟨hne, v, hvmem, hveq, hvid⟩
      apply hc
      rw [Bool.and_eq_true]
      exact ⟨by simp [bne_iff_ne, hne],
        List.find?_isSome.mpr ⟨v, hvmem, by simp [hveq, bne_iff_ne, hvid]⟩⟩
    cases hidx : st.db.findIdx? (fun u => u.id == user.id) with
    | some i =>
      refine ⟨iff_of_false ?_ hnc, fun _ => rfl, fun _ => rfl⟩
      intro hcon
      have hsnd := congrArg Prod.snd hcon
      simp at hsnd
    | none =>
      refine ⟨iff_of_false ?_ hnc, fun _ => rfl, fun _ => rfl⟩
      intro hcon
      have hsnd := congrArg Prod.snd hcon
      simp at hsnd

/-- Witness for the amended C6: a save keeping the user's own email succeeds. -/
theorem c6_update_duplicate_amended_witness :
    validateEditForm ⟨"A", "A", "a@b.c"⟩ = true ∧
    ((⟨"A", "A", "a@b.c"⟩ : EditForm).email
        = (⟨"9", "X", "Y", "a@b.c", "pw", "t"⟩ : UserRecord).email →
      (handleSave ⟨[], none⟩ ⟨"9", "X", "Y", "a@b.c", "pw", "t"⟩
          ⟨"A", "A", "a@b.c"⟩).2
        = .ok (applyEdit ⟨"9", "X", "Y", "a@b.c", "pw", "t"⟩ ⟨"A", "A", "a@b.c"⟩)) :=
  ⟨by decide,
   (c6_update_duplicate_amended ⟨[], none⟩ ⟨"9", "X", "Y", "a@b.c", "pw", "t"⟩
      ⟨"A", "A", "a@b.c"⟩ (by decide)).2.2⟩

/-- C6 counterexample: when the store already holds a different record with
the user's own email, a save keeping that email succeeds even though the patch
email equals the email of a record with a different id, so the claimed
unconditional failure does not hold. -/
theorem c6_keep_own_email_counterexample :
    validateEditForm ⟨"A", "A", "a@b.c"⟩ = true ∧
    (∃ v ∈ [(⟨"1", "A", "A", "a@b.c", "pw", "t"⟩ : UserRecord),
            ⟨"2", "B", "B", "a@b.c", "pw", "t"⟩],
       v.email = (⟨"A", "A", "a@b.c"⟩ : EditForm).email ∧ v.id ≠ "1") ∧
    (handleSave ⟨[⟨"1", "A", "A", "a@b.c", "pw", "t"⟩,
                  ⟨"2", "B", "B", "a@b.c", "pw", "t"⟩], none⟩
        ⟨"1", "A", "A", "a@b.c", "pw", "t"⟩ ⟨"A", "A", "a@b.c"⟩).2
      ≠ .error .duplicateEmail ∧
    (handleSave ⟨[⟨"1", "A", "A", "a@b.c", "pw", "t"⟩,
                  ⟨"2", "B", "B", "a@b.c", "pw", "t"⟩], none⟩
        ⟨"1", "A", "A", "a@b.c", "pw", "t"⟩ ⟨"A", "A", "a@b.c"⟩).2
      = .ok (applyEdit ⟨"1", "A", "A", "a@b.c", "pw", "t"⟩ ⟨"A", "A", "a@b.c"⟩) := by
  decide

/-- C7: a successful save of the record stored at the found index replaces
only the mutable fields — id, password and creation timestamp are unchanged —
leaves every other record untouched, keeps the record's position, and persists
the collection. -/
theorem c7_update_frame (st : AppState) (user : UserRecord) (f : EditForm)
    (i : Nat) (hv : validateEditForm f = true)
    (hfind : st.db.findIdx? (fun u => u.id == user.id) = some i)
    (hstore : st.db.get? i = some user)
    (hnodup : f.email = user.email ∨
      ¬ ∃ v ∈ st.db, v.email = f.email ∧ v.id ≠ user.id) :
    (handleSave st user f).2 = .ok (applyEdit user f) ∧
    (handleSave st user f).1.db = st.db.set i (applyEdit user f) ∧
    (applyEdit user f).id = user.id ∧
    (applyEdit user f).password = user.password ∧
    (applyEdit user f).memberSince = user.memberSince ∧
    (∀ j, j ≠ i → (handleSave st user f).1.db.get? j = st.db.get? j) ∧
    (handleSave st user f).1.db.get? i = some (applyEdit user f) ∧
    (handleSave st user f).1.db.length = st.db.length ∧
    (handleSave st user f).1.slot
      = some (stringifyUsers (st.db.set i (applyEdit user f))) := by
  have hi : i < st.db.length := by
    rcases List.get?_eq_some.mp hstore with ⟨h, _⟩
    exact h
  have hbranch : handleSave st user f
      = (updateLocalStorage { db := st.db.set i (applyEdit user f), slot := st.slot },
         .ok (applyEdit user f)) := by
    unfold handleSave
    rw [hv]
    simp only [Bool.not_true, Bool.false_eq_true, if_false]
    have hcond : (f.email != user.email &&
        (st.db.find? (fun u => u.email == f.email && u.id != user.id)).isSome)
          = false := by
      rcases hnodup with heq | hnone
      · simp [heq]
      · cases hsome : (st.db.find?
            (fun u => u.email == f.email && u.id != user.id)).isSome with
        | false => simp
        | true =>
          exfalso
          rw [List.find?_isSome] at hsome
          obtain ⟨v, hvmem, hvp⟩ := hsome
          simp only [Bool.and_eq_true, beq_iff_eq, bne_iff_ne] at hvp
          exact hnone ⟨v, hvmem, hvp.1, hvp.2⟩
    rw [hcond]
    simp only [Bool.false_eq_true, if_false]
    rw [hfind]
  rw [hbranch]
  refine ⟨rfl, rfl, rfl, rfl, rfl, ?_, ?_,
    by show (st.db.set i (applyEdit user f)).length = st.db.length; simp, rfl⟩
  · intro j hj
    show (st.db.set i (applyEdit user f)).get? j = st.db.get? j
    simp [List.get?_eq_getElem?, List.getElem?_set_ne (Ne.symm hj)]
  · show (st.db.set i (applyEdit user f)).get? i = some (applyEdit user f)
    simp [List.get?_eq_getElem?, List.getElem?_set_self hi]

/-- Witness for C7 at a concrete one-record store. -/
theorem c7_update_frame_witness :
    validateEditForm ⟨"C", "D", "a@b.c"⟩ = true ∧
    (handleSave ⟨[⟨"1", "A", "B", "a@b.c", "pw", "t"⟩], none⟩
        ⟨"1", "A", "B", "a@b.c", "pw", "t"⟩ ⟨"C", "D", "a@b.c"⟩).2
      = .ok (applyEdit ⟨"1", "A", "B", "a@b.c", "pw", "t"⟩ ⟨"C", "D", "a@b.c"⟩) :=
  ⟨by decide,
   (c7_update_frame ⟨[⟨"1", "A", "B", "a@b.c", "pw", "t"⟩], none⟩
      ⟨"1", "A", "B", "a@b.c", "pw", "t"⟩ ⟨"C", "D", "a@b.c"⟩ 0 (by decide)
      (by decide) (by decide) (Or.inl (by decide))).1⟩

/-- Entries at distinct positions of an email-pairwise-distinct collection
have distinct emails. -/
theorem pairwise_ne_emails {l : List UserRecord}
    (hp : l.Pairwise (fun a b => a.email ≠ b.email)) {j k : Nat}
    (hj : j < l.length) (hk : k < l.length) (hjk : j ≠ k) :
    l[j].email ≠ l[k].email := by
  rcases Nat.lt_or_ge j k with h | h
  · exact List.pairwise_iff_getElem.mp hp j k hj hk h
  · have hkj : k < j := by omega
    exact (List.pairwise_iff_getElem.mp hp k j hk hj hkj).symm

/-- Entries at distinct positions of an id-pairwise-distinct collection have
distinct ids. -/
theorem pairwise_ne_ids {l : List UserRecord}
    (hp : l.Pairwise (fun a b => a.id ≠ b.id)) {j k : Nat}
    (hj : j < l.length) (hk : k < l.length) (hjk : j ≠ k) :
    l[j].id ≠ l[k].id := by
  rcases Nat.lt_or_ge j k with h | h
  · exact List.pairwise_iff_getElem.mp hp j k hj hk h
  · have hkj : k < j := by omega
    exact (List.pairwise_iff_getElem.mp hp k j hk hj hkj).symm

/-- C1 (amended): pairwise-distinct emails are preserved by every registration
submission, and by every profile save provided record ids are pairwise
distinct and every store record carrying the edited user's id also carries the
edited user's email (as the session record does). -/
theorem c1_email_uniqueness_amended :
    (∀ (st : AppState) (f : RegForm) (nowMs : Nat) (isoNow : String),
      st.db.Pairwise (fun a b => a.email ≠ b.email) →
      (handleRegisterSubmit st f nowMs isoNow).1.db.Pairwise
        (fun a b => a.email ≠ b.email)) ∧
    (∀ (st : AppState) (user : UserRecord) (f : EditForm),
      st.db.Pairwise (fun a b => a.email ≠ b.email) →
      st.db.Pairwise (fun a b => a.id ≠ b.id) →
      (∀ v ∈ st.db, v.id = user.id → v.email = user.email) →
      (handleSave st user f).1.db.Pairwise (fun a b => a.email ≠ b.email)) := by
  constructor
  · intro st f nowMs isoNow hem
    unfold handleRegisterSubmit
    cases hval : validateRegForm f with
    | false => simpa using hem
    | true =>
      simp only [Bool.not_true, Bool.false_eq_true, if_false]
      cases hfind : st.db.find? (fun u => u.email == f.email) with
      | some u => exact hem
      | none =>
        show (st.db ++ [mkUser f nowMs isoNow]).Pairwise (fun a b => a.email ≠ b.email)
        rw [List.pairwise_append]
        refine ⟨hem, by simp, ?_⟩
        intro a ha b hb
        rw [List.mem_singleton] at hb
        subst hb
        have hane := List.find?_eq_none.mp hfind a ha
        have hne : a.email ≠ f.email := fun hc => hane (by rw [hc]; simp)
        have hmk : (mkUser f nowMs isoNow).email = f.email :=
          jsTrim_of_validateEmail (validateRegForm_email hval)
        rw [hmk]
        exact hne
  · intro st user f hem hid huser
    unfold handleSave
    cases hval : validateEditForm f with
    | false => simpa using hem
    | true =>
      simp only [Bool.not_true, Bool.false_eq_true, if_false]
      by_cases hdup : (f.email != user.email &&
          (st.db.find? (fun u => u.email == f.email && u.id != user.id)).isSome)
            = true
      · rw [if_pos hdup]
        exact hem
      · rw [if_neg hdup]
        cases hidx : st.db.findIdx? (fun u => u.id == user.id) with
        | none => exact hem
        | some i =>
          show (st.db.set i (applyEdit user f)).Pairwise (fun a b => a.email ≠ b.email)
          obtain ⟨hlt, hpi, _⟩ := List.findIdx?_eq_some_iff_getElem.mp hidx
          have hidEq : st.db[i].id = user.id := by simpa using hpi
          have hemEq : st.db[i].email = user.email :=
            huser _ (List.getElem_mem hlt) hidEq
          have hnue : (applyEdit user f).email = f.email := by
            show jsTrim f.email = f.email
            exact jsTrim_of_validateEmail (validateEditForm_email hval)
          have hkey : ∀ k (hk : k < st.db.length), k ≠ i →
              st.db[k].email ≠ (applyEdit user f).email := by
            intro k hk hki hc
            rw [hnue] at hc
            by_cases hfe : f.email = user.email
            · have hik : st.db[k].email = st.db[i].email := by
                rw [hc, hfe, hemEq]
              exact pairwise_ne_emails hem hk hlt hki hik
            · have hbne : (f.email != user.email) = true := by
                simp [bne_iff_ne, hfe]
              have hforall : ∀ v ∈ st.db,
                  ¬((v.email == f.email && v.id != user.id) = true) := by
                intro v hv hvp
                have hs : (st.db.find?
                    (fun u => u.email == f.email && u.id != user.id)).isSome = true :=
                  List.find?_isSome.mpr ⟨v, hv, hvp⟩
                exact hdup (by simp [hbne, hs])
              have hkid : st.db[k].id = user.id := by
                by_contra hkid
                exact hforall (st.db[k]) (List.getElem_mem hk)
                  (by simp [hc, bne_iff_ne, hkid])
              have hik : st.db[k].id = st.db[i].id := by rw [hkid, hidEq]
              exact pairwise_ne_ids hid hk hlt hki hik
          rw [List.pairwise_iff_getElem]
          intro j k hj hk hjk
          simp only [List.length_set] at hj hk
          by_cases hij : i = j
          · subst hij
            have hki : k ≠ i := by omega
            rw [List.getElem_set_self, List.getElem_set_ne hki.symm]
            exact (hkey k hk hki).symm
          · by_cases hik : i = k
            · subst hik
              rw [List.getElem_set_self, List.getElem_set_ne hij]
              exact hkey j hj (fun hc => hij hc.symm)
            · rw [List.getElem_set_ne hij, List.getElem_set_ne hik]
              exact pairwise_ne_emails hem hj hk (by omega)

/-- Witness for the amended C1: a registration over a one-record store with a
fresh email keeps emails pairwise distinct. -/
theorem c1_email_uniqueness_amended_witness :
    ([(⟨"5", "A", "B", "a@b.c", "secret1", "t"⟩ : UserRecord)].Pairwise
        (fun a b => a.email ≠ b.email)) ∧
    ((handleRegisterSubmit ⟨[⟨"5", "A", "B", "a@b.c", "secret1", "t"⟩], none⟩
        ⟨"C", "D", "c@d.e", "secret1", "secret1"⟩ 6 "t").1.db.Pairwise
        (fun a b => a.email ≠ b.email)) :=
  ⟨by decide,
   c1_email_uniqueness_amended.1 ⟨[⟨"5", "A", "B", "a@b.c", "secret1", "t"⟩], none⟩
      ⟨"C", "D", "c@d.e", "secret1", "secret1"⟩ 6 "t" (by decide)⟩

/-- C1 counterexample: in a store whose emails are pairwise distinct but whose
ids collide, a successful save of the second record (which is a record of the
store, keeping its own email) overwrites the first record, leaving two records
with equal emails — so email distinctness alone is not preserved. -/
theorem c1_duplicate_id_counterexample :
    ([(⟨"1", "A", "A", "a1@b.c", "pw", "t"⟩ : UserRecord),
      ⟨"1", "B", "B", "b2@b.c", "pw", "t"⟩].Pairwise
        (fun a b => a.email ≠ b.email)) ∧
    (⟨"1", "B", "B", "b2@b.c", "pw", "t"⟩ : UserRecord) ∈
      [(⟨"1", "A", "A", "a1@b.c", "pw", "t"⟩ : UserRecord),
       ⟨"1", "B", "B", "b2@b.c", "pw", "t"⟩] ∧
    (handleSave ⟨[⟨"1", "A", "A", "a1@b.c", "pw", "t"⟩,
                  ⟨"1", "B", "B", "b2@b.c", "pw", "t"⟩], none⟩
        ⟨"1", "B", "B", "b2@b.c", "pw", "t"⟩ ⟨"B", "B", "b2@b.c"⟩).2
      = .ok (applyEdit ⟨"1", "B", "B", "b2@b.c", "pw", "t"⟩ ⟨"B", "B", "b2@b.c"⟩) ∧
    ¬ ((handleSave ⟨[⟨"1", "A", "A", "a1@b.c", "pw", "t"⟩,
                  ⟨"1", "B", "B", "b2@b.c", "pw", "t"⟩], none⟩
        ⟨"1", "B", "B", "b2@b.c", "pw", "t"⟩ ⟨"B", "B", "b2@b.c"⟩).1.db.Pairwise
        (fun a b => a.email ≠ b.email)) := by
  decide

/-- C9 (amended): update never changes the sequence of record ids, and a
registration whose generated id (the decimal rendering of the millisecond
clock) is absent from the store preserves pairwise-distinct ids; ids are
generated only at creation. -/
theorem c9_id_uniqueness_amended :
    (∀ (st : AppState) (f : RegForm) (nowMs : Nat) (isoNow : String),
      st.db.Pairwise (fun a b => a.id ≠ b.id) →
      Nat.repr nowMs ∉ st.db.map (fun u => u.id) →
      (handleRegisterSubmit st f nowMs isoNow).1.db.Pairwise
        (fun a b => a.id ≠ b.id)) ∧
    (∀ (st : AppState) (user : UserRecord) (f : EditForm),
      (handleSave st user f).1.db.map (fun u => u.id)
        = st.db.map (fun u => u.id)) := by
  constructor
  · intro st f nowMs isoNow hid hfresh
    unfold handleRegisterSubmit
    cases hval : validateRegForm f with
    | false => simpa using hid
    | true =>
      simp only [Bool.not_true, Bool.false_eq_true, if_false]
      cases hfind : st.db.find? (fun u => u.email == f.email) with
      | some u => exact hid
      | none =>
        show (st.db ++ [mkUser f nowMs isoNow]).Pairwise (fun a b => a.id ≠ b.id)
        rw [List.pairwise_append]
        refine ⟨hid, by simp, ?_⟩
        intro a ha b hb
        rw [List.mem_singleton] at hb
        subst hb
        show a.id ≠ Nat.repr nowMs
        intro hc
        exact hfresh (List.mem_map.mpr ⟨a, ha, hc⟩)
  · intro st user f
    unfold handleSave
    cases hval : validateEditForm f with
    | false => simp
    | true =>
      simp only [Bool.not_true, Bool.false_eq_true, if_false]
      by_cases hdup : (f.email != user.email &&
          (st.db.find? (fun u => u.email == f.email && u.id != user.id)).isSome)
            = true
      · rw [if_pos hdup]
      · rw [if_neg hdup]
        cases hidx : st.db.findIdx? (fun u => u.id == user.id) with
        | none => rfl
        | some i =>
          show (st.db.set i (applyEdit user f)).map (fun u => u.id)
            = st.db.map (fun u => u.id)
          obtain ⟨hlt, hpi, _⟩ := List.findIdx?_eq_some_iff_getElem.mp hidx
          have hidEq : st.db[i].id = user.id := by simpa using hpi
          rw [List.map_set]
          apply List.ext_getElem?
          intro n
          by_cases hn : i = n
          · subst hn
            rw [List.getElem?_set_self (by simpa using hlt)]
            show _ = (st.db.map (fun u => u.id))[i]?
            rw [List.getElem?_map]
            rw [List.getElem?_eq_getElem hlt]
            show some (applyEdit user f).id = some st.db[i].id
            rw [hidEq]
            rfl
          · rw [List.getElem?_set_ne hn]

/-- Witness for the amended C9: a registration at a fresh millisecond keeps
ids pairwise distinct. -/
theorem c9_id_uniqueness_amended_witness :
    (([(⟨"5", "A", "B", "a@b.c", "secret1", "t"⟩ : UserRecord)] :
        List UserRecord).Pairwise (fun a b => a.id ≠ b.id) ∧
      Nat.repr 6 ∉ ([(⟨"5", "A", "B", "a@b.c", "secret1", "t"⟩ : UserRecord)] :
        List UserRecord).map (fun u => u.id)) ∧
    ((handleRegisterSubmit ⟨[⟨"5", "A", "B", "a@b.c", "secret1", "t"⟩], none⟩
        ⟨"C", "D", "c@d.e", "secret1", "secret1"⟩ 6 "t").1.db.Pairwise
        (fun a b => a.id ≠ b.id)) :=
  ⟨⟨by decide, by decide⟩,
   c9_id_uniqueness_amended.1 ⟨[⟨"5", "A", "B", "a@b.c", "secret1", "t"⟩], none⟩
      ⟨"C", "D", "c@d.e", "secret1", "secret1"⟩ 6 "t" (by decide) (by decide)⟩

/-- C9 counterexample: two successful registrations in the same millisecond
(clock value 5) are reachable from the fresh state and yield two distinct
records with the same generated identifier, so identifier uniqueness does not
hold in every reachable state. -/
theorem c9_duplicate_id_counterexample :
    Reachable (handleRegisterSubmit (handleRegisterSubmit ⟨[], none⟩
        ⟨"A", "A", "a@b.c", "secret1", "secret1"⟩ 5 "t").1
        ⟨"B", "B", "b@c.d", "secret1", "secret1"⟩ 5 "t").1 ∧
    (handleRegisterSubmit (handleRegisterSubmit ⟨[], none⟩
        ⟨"A", "A", "a@b.c", "secret1", "secret1"⟩ 5 "t").1
        ⟨"B", "B", "b@c.d", "secret1", "secret1"⟩ 5 "t").1.db
      = [mkUser ⟨"A", "A", "a@b.c", "secret1", "secret1"⟩ 5 "t",
         mkUser ⟨"B", "B", "b@c.d", "secret1", "secret1"⟩ 5 "t"] ∧
    mkUser ⟨"A", "A", "a@b.c", "secret1", "secret1"⟩ 5 "t"
      ≠ mkUser ⟨"B", "B", "b@c.d", "secret1", "secret1"⟩ 5 "t" ∧
    (mkUser ⟨"A", "A", "a@b.c", "secret1", "secret1"⟩ 5 "t").id
      = (mkUser ⟨"B", "B", "b@c.d", "secret1", "secret1"⟩ 5 "t").id := by
  refine ⟨Reachable.register _ _ _ _ (Reachable.register _ _ _ _ Reachable.init),
    ?_, ?_, ?_⟩
  · decide
  · decide
  · decide

end AccountApp
